import Mathlib

/-!
Shallow embedding of the Netlify edge capture middleware
(`netlify/edge-functions/traceable.js`) and proofs about its
specification.  JavaScript numbers that hold byte values are modelled as
`Nat` (each byte `< 256`), configured sizes as `Int` (JS `parseInt` may
produce negative values), byte buffers as `List Nat`, and JS strings as
Lean `String`.  Platform collaborators (environment lookup, `JSON.parse`
for list-valued overrides, `fetch`) are passed in as explicit function
arguments so every code path is a pure, executable Lean function.
-/

deriving instance DecidableEq for Except

/-- Arithmetic reading of a JS `x <<< k ||| b` accumulation step when the
incoming byte is below `2 ^ k`. -/
theorem lor_shift (a b k : Nat) (h : b < 2 ^ k) : (a <<< k) ||| b = a * 2 ^ k + b := by
  have h2 : a <<< k = 2 ^ k * a := by rw [Nat.shiftLeft_eq]; ring
  rw [h2, ← Nat.mul_add_lt_is_or h a]
  ring

/-- Arithmetic reading of the JS mask `x & 63`. -/
theorem and63 (n : Nat) : n &&& 63 = n % 64 := by
  rw [show (63 : Nat) = 2 ^ 6 - 1 from rfl, Nat.and_pow_two_sub_one_eq_mod]

/-- JS `String.prototype.toLowerCase` restricted to the simple
character-wise case mapping, kept kernel-reducible by working on the
character list. -/
def jsToLower (s : String) : String := String.mk (s.toList.map Char.toLower)

/-- JS `String.prototype.endsWith`. -/
def jsEndsWith (s suffix : String) : Bool := suffix.toList.isSuffixOf s.toList

/-- JS `String.prototype.startsWith`. -/
def jsStartsWith (s pre : String) : Bool := pre.toList.isPrefixOf s.toList

/-- JS `String.prototype.slice(0, -1)`: drop the final character. -/
def jsDropLast (s : String) : String := String.mk s.toList.dropLast

/-- The mutable `CONFIG` object of `traceable.js`, as a value type.
`max_size_bytes` is an `Int` because the `TA_MAX_SIZE_BYTES` override goes
through JS `parseInt`, which can yield a negative number. -/
structure Config where
  tpa_address : String
  service_name : String
  traceable_guid : String
  environment_name : String
  capture_content_types : List String
  max_size_bytes : Int
  capture_hosts : List String
  ignore_hosts : List String
  skip_routes : List String
  debug : Bool
deriving DecidableEq

/-- The initial value of the module-level `CONFIG` object. -/
def CONFIG : Config :=
  { tpa_address := "https://REPLACE_WITH_TPA_HOST"
            , service_name := "website"
    , traceable_guid := ""
    , environment_name := ""
    , capture_content_types := ["json", "xml", "grpc", "x-www-form-urlencoded"]
    , max_size_bytes := 131072
    , capture_hosts := []
    , ignore_hosts := []
    , skip_routes := []
    , debug := false }

/-- The components of a parsed `URL` value that the middleware reads
(`new URL(request.url)` is performed by the platform). -/
structure URL where
  protocol : String
  host : String
  hostname : String
  pathname : String
deriving DecidableEq

/-- A Fetch-API header collection: an ordered list of name/value pairs with
case-insensitive lookup, mirroring the platform `Headers` contract. -/
structure Headers where
  entries : List (String × String)
deriving DecidableEq

/-- `Headers.get`: case-insensitive lookup of the first matching header,
`none` when absent (JS `null`). -/
def Headers.get (h : Headers) (name : String) : Option String :=
  (h.entries.find? fun kv => jsToLower kv.fst == jsToLower name).map Prod.snd

/-- JS `s.indexOf(sub) > -1`: substring containment. -/
def strContains (s sub : String) : Bool := decide (sub.toList <:+: s.toList)

/-- `shouldSkipRoute(url, config)` from `traceable.js`.  A pattern ending in
`"/*"` drops its final `*` (JS `pattern.slice(0, -1)`) and prefix-matches
the path; any other pattern must equal the path exactly. -/
def shouldSkipRoute (url : URL) (config : Config) : Bool :=
  config.skip_routes.any fun pattern =>
    if jsEndsWith pattern "/*" then
      jsStartsWith url.pathname (jsDropLast pattern)
    else
      url.pathname == pattern

/-- The `staticExtensions` list from `traceable.js`. -/
def staticExtensions : List String :=
  [".css", ".js", ".mjs", ".jpg", ".jpeg", ".png", ".gif", ".svg", ".ico",
   ".woff", ".woff2", ".eot", ".ttf", ".otf", ".webp", ".avif", ".mp4",
   ".webm", ".txt", ".map"]

/-- `isStatic(url)` from `traceable.js`. -/
def isStatic (url : URL) : Bool :=
  staticExtensions.any fun ext => jsEndsWith url.pathname ext

/-- One JS object property write `obj[k] = v` on a string-keyed object
modelled as an insertion-ordered association list (last write wins). -/
def jsObjectSet (obj : List (String × String)) (k v : String) : List (String × String) :=
  if obj.any fun kv => kv.fst == k then
    obj.map fun kv => if kv.fst == k then (k, v) else kv
  else
    obj ++ [(k, v)]

/-- `formatHeaders(headerCollection)` from `traceable.js`: flatten a header
collection into a plain object via `forEach`. -/
def formatHeaders (headerCollection : Headers) : List (String × String) :=
  headerCollection.entries.foldl (fun acc kv => jsObjectSet acc kv.fst kv.snd) []

/-- `shouldCapture(headers)` from `traceable.js`.  The source reads the
module-level `CONFIG`; the current config value is passed explicitly.
JS `get('Content-Type') || get('content-type')` falls through on the falsy
empty string, and `if (!contentTypeHeader) return false` also rejects the
empty string. -/
def shouldCapture (cfg : Config) (headers : Headers) : Bool :=
  let g1 := headers.get "Content-Type"
  let g2 := headers.get "content-type"
  let contentTypeHeader : Option String :=
    match g1 with
    | some s => if s.length > 0 then some s else g2
    | none => g2
  match contentTypeHeader with
  | none => false
  | some v =>
      if v.length = 0 then false
      else
        let ct := jsToLower v
        cfg.capture_content_types.any fun t => strContains ct (jsToLower t)

/-- `shouldCaptureHost(url, config)` from `traceable.js`. -/
def shouldCaptureHost (url : URL) (config : Config) : Bool :=
  if config.capture_hosts.length > 0 then
    config.capture_hosts.any fun host => jsEndsWith url.hostname host
  else if config.ignore_hosts.length > 0 then
    !(config.ignore_hosts.any fun host => jsEndsWith url.hostname host)
  else
    true

/-- `isGrpc(headers)` from `traceable.js`. -/
def isGrpc (headers : Headers) : Bool :=
  let g1 := headers.get "Content-Type"
  let g2 := headers.get "content-type"
  let contentType : Option String :=
    match g1 with
    | some s => if s.length > 0 then some s else g2
    | none => g2
  match contentType with
  | none => false
  | some v =>
      if v.length = 0 then false
      else strContains (jsToLower v) "grpc"

/-- ECMAScript `TypedArray.prototype.slice(0, endIdx)` on a byte buffer:
a negative end counts from the end of the buffer. -/
def jsSliceTo (l : List Nat) (endIdx : Int) : List Nat :=
  let len : Int := l.length
  let final : Int := if endIdx < 0 then max (len + endIdx) 0 else min endIdx len
  l.take final.toNat

/-- The result record of `readClonedBody`. -/
structure CapturedBody where
  body : List Nat
  truncated : Bool
deriving DecidableEq

/-- `readClonedBody(config, clonedBody)` from `traceable.js`, applied to the
byte buffer produced by a successful `arrayBuffer()` read (a failing read is
modelled at the call sites with `Except`). -/
def readClonedBody (config : Config) (bodyBytes : List Nat) : CapturedBody :=
  { body := jsSliceTo bodyBytes config.max_size_bytes
  , truncated := decide ((bodyBytes.length : Int) > config.max_size_bytes) }

/-- C1: for every body of length `L` and every configured (hence
non-negative) `max_size_bytes`, `readClonedBody` captures exactly the first
`min(L, max_size_bytes)` bytes of the body and sets `truncated` iff
`L > max_size_bytes`. -/
theorem readClonedBody_correct (cfg : Config) (bodyBytes : List Nat)
    (h : 0 ≤ cfg.max_size_bytes) :
    (readClonedBody cfg bodyBytes).body
        = bodyBytes.take (min bodyBytes.length cfg.max_size_bytes.toNat)
      ∧ ((readClonedBody cfg bodyBytes).truncated = true
          ↔ bodyBytes.length > cfg.max_size_bytes.toNat) := by
  obtain ⟨n, hn⟩ := Int.eq_ofNat_of_zero_le h
  constructor
  · show jsSliceTo bodyBytes cfg.max_size_bytes = _
    unfold jsSliceTo
    rw [hn]
    have hneg : ¬ ((n : Int) < 0) := by omega
    simp only [hneg, if_false]
    rcases le_or_lt bodyBytes.length n with hle | hlt
    · have h1 : min (n : Int) (bodyBytes.length : Int) = (bodyBytes.length : Int) := by omega
      have h2 : min bodyBytes.length ((n : Int)).toNat = bodyBytes.length := by
        simp [Int.toNat_natCast]; omega
      rw [h1, h2]
      simp
    · have h1 : min (n : Int) (bodyBytes.length : Int) = (n : Int) := by omega
      have h2 : min bodyBytes.length ((n : Int)).toNat = n := by
        simp [Int.toNat_natCast]; omega
      rw [h1, h2]
      simp
  · show decide ((bodyBytes.length : Int) > cfg.max_size_bytes) = true ↔ _
    rw [hn]
    simp [Int.toNat_natCast]

/-- Witness for C1 at a concrete config and body. -/
theorem readClonedBody_correct_witness :
    (0 : Int) ≤ CONFIG.max_size_bytes
      ∧ ((readClonedBody CONFIG [10, 20, 30]).body
            = [10, 20, 30].take (min 3 CONFIG.max_size_bytes.toNat)
          ∧ ((readClonedBody CONFIG [10, 20, 30]).truncated = true ↔ 3 > CONFIG.max_size_bytes.toNat)) :=
  ⟨by decide, readClonedBody_correct CONFIG [10, 20, 30] (by decide)⟩

/-- C6: `shouldSkipRoute` returns true iff some configured pattern matches
the path, where a pattern ending in the wildcard marker `/*` matches exactly
the paths starting with the pattern with the `*` stripped, and any other
pattern matches only the exactly equal path; in particular
`skip_routes = ["/api/*"]` skips `/api/foo` but not `/apiary`. -/
theorem shouldSkipRoute_spec :
    (∀ (url : URL) (cfg : Config),
        shouldSkipRoute url cfg = true
          ↔ ∃ p ∈ cfg.skip_routes,
              if jsEndsWith p "/*" = true
              then (jsDropLast p).toList <+: url.pathname.toList
              else url.pathname = p)
      ∧ shouldSkipRoute
          { protocol := "https:", host := "example.com", hostname := "example.com",
            pathname := "/api/foo" }
          { CONFIG with skip_routes := ["/api/*"] } = true
      ∧ shouldSkipRoute
          { protocol := "https:", host := "example.com", hostname := "example.com",
            pathname := "/apiary" }
          { CONFIG with skip_routes := ["/api/*"] } = false := by
  refine ⟨fun url cfg => ?_, by decide, by decide⟩
  unfold shouldSkipRoute
  rw [List.any_eq_true]
  refine exists_congr fun p => and_congr_right fun _ => ?_
  split_ifs with hw
  · simp [hw, jsStartsWith]
  · simp [hw]

/-- C7: host filtering: a non-empty allowlist wins (hostname must end with
one of its entries, the denylist being ignored); otherwise a non-empty
denylist rejects hostnames ending with any entry; otherwise capture is
allowed. -/
theorem shouldCaptureHost_spec :
    (∀ (url : URL) (cfg : Config),
        shouldCaptureHost url cfg = true
          ↔ if cfg.capture_hosts ≠ []
            then ∃ h ∈ cfg.capture_hosts, h.toList <:+ url.hostname.toList
            else if cfg.ignore_hosts ≠ []
            then ∀ h ∈ cfg.ignore_hosts, ¬ h.toList <:+ url.hostname.toList
            else True)
      ∧ shouldCaptureHost
          { protocol := "https:", host := "api.example.com", hostname := "api.example.com",
            pathname := "/" }
          { CONFIG with capture_hosts := ["example.com"], ignore_hosts := ["zzz"] } = true
      ∧ shouldCaptureHost
          { protocol := "https:", host := "other.org", hostname := "other.org",
            pathname := "/" }
          { CONFIG with capture_hosts := ["example.com"] } = false
      ∧ shouldCaptureHost
          { protocol := "https:", host := "api.example.com", hostname := "api.example.com",
            pathname := "/" }
          { CONFIG with ignore_hosts := ["example.com"] } = false
      ∧ shouldCaptureHost
          { protocol := "https:", host := "other.org", hostname := "other.org",
            pathname := "/" }
          { CONFIG with ignore_hosts := ["example.com"] } = true := by
  refine ⟨fun url cfg => ?_, by decide, by decide, by decide, by decide⟩
  unfold shouldCaptureHost
  rcases eq_or_ne cfg.capture_hosts [] with hc | hc
  · rcases eq_or_ne cfg.ignore_hosts [] with hi | hi
    · simp [hc, hi]
    · have : cfg.ignore_hosts.length > 0 := by
        cases h : cfg.ignore_hosts with
        | nil => exact absurd h hi
        | cons a l => simp [h]
      simp [hc, hi, this, List.any_eq_true, jsEndsWith]
  · have : cfg.capture_hosts.length > 0 := by
      cases h : cfg.capture_hosts with
      | nil => exact absurd h hc
      | cons a l => simp [h]
    simp [hc, this, List.any_eq_true, jsEndsWith]

/-- The base64 alphabet string `chars` from `uint8ArrayToBase64`. -/
def b64chars : List Char :=
  "ABCDEFGHIJKLMNOPQRSTUVWXYZabcdefghijklmnopqrstuvwxyz0123456789+/".toList

/-- JS `chars[n]`: character of the alphabet at index `n` (every index used
by the source is in range). -/
def b64char (n : Nat) : Char := b64chars.getD n 'A'

/-- The `for` loop of `uint8ArrayToBase64`: fold the bytes into `uint24`
with `uint24 = (uint24 << 8) | buffer[i]` (a 32-bit JS bitwise operation,
hence the `% 2^32`), emitting four characters and resetting every third
byte.  Returns the final `uint24` and the accumulated output. -/
def b64Go : List Nat → Nat → Nat → List Char → Nat × List Char
  | [], _, uint24, base64 => (uint24, base64)
  | b :: rest, i, uint24, base64 =>
    let u := ((uint24 <<< 8) ||| b) % 4294967296
    if i % 3 == 2 then
      b64Go rest (i + 1) 0 (base64 ++
        [b64char ((u >>> 18) &&& 63), b64char ((u >>> 12) &&& 63),
         b64char ((u >>> 6) &&& 63), b64char (u &&& 63)])
    else
      b64Go rest (i + 1) u base64

/-- `uint8ArrayToBase64(buffer)` from `traceable.js`: the loop above plus
the `bytes % 3` padding tail. -/
def uint8ArrayToBase64 (buffer : List Nat) : String :=
  let bytes := buffer.length
  let r := b64Go buffer 0 0 []
  let tail : List Char :=
    if bytes % 3 == 1 then
      let u := (r.fst <<< 16) % 4294967296
      [b64char ((u >>> 18) &&& 63), b64char ((u >>> 12) &&& 63), '=', '=']
    else if bytes % 3 == 2 then
      let u := (r.fst <<< 8) % 4294967296
      [b64char ((u >>> 18) &&& 63), b64char ((u >>> 12) &&& 63),
       b64char ((u >>> 6) &&& 63), '=']
    else []
  String.mk (r.snd ++ tail)

/-- Modelled from the spec: the standard RFC 4648 base64 encoding (standard
alphabet, `=` padding, no line wrapping), written as the textbook
three-bytes-to-four-characters split. -/
def rfc4648Encode : List Nat → List Char
  | [] => []
  | [a] => [b64char (a / 4), b64char (a % 4 * 16), '=', '=']
  | [a, b] => [b64char (a / 4), b64char (a % 4 * 16 + b / 16), b64char (b % 16 * 4), '=']
  | a :: b :: c :: rest =>
      b64char (a / 4) :: b64char (a % 4 * 16 + b / 16) ::
        b64char (b % 16 * 4 + c / 64) :: b64char (c % 64) :: rfc4648Encode rest

/-- Index of a character in the base64 alphabet. -/
def b64index (c : Char) : Nat := b64chars.indexOf c

/-- Modelled from the spec: standard RFC 4648 base64 decoding of a padded
encoding (inverse of `rfc4648Encode`; the system itself never decodes). -/
def rfc4648Decode : List Char → List Nat
  | c1 :: c2 :: c3 :: c4 :: rest =>
      if c3 = '=' then
        [b64index c1 * 4 + b64index c2 / 16]
      else if c4 = '=' then
        [b64index c1 * 4 + b64index c2 / 16, b64index c2 % 16 * 16 + b64index c3 / 4]
      else
        (b64index c1 * 4 + b64index c2 / 16) ::
          (b64index c2 % 16 * 16 + b64index c3 / 4) ::
          (b64index c3 % 4 * 64 + b64index c4) :: rfc4648Decode rest
  | _ => []

/-- The loop counter of `b64Go` only matters modulo 3. -/
theorem b64Go_i_shift : ∀ (l : List Nat) (i u : Nat) (acc : List Char),
    b64Go l (i + 3) u acc = b64Go l i u acc
  | [], _, _, _ => rfl
  | b :: rest, i, u, acc => by
    simp only [b64Go]
    have h3 : (i + 3) % 3 = i % 3 := by omega
    have h4 : i + 3 + 1 = (i + 1) + 3 := by omega
    rw [h3]
    by_cases hc : ((i % 3 == 2) = true)
    · simp only [if_pos hc]
      rw [h4, b64Go_i_shift rest (i + 1) 0]
    · simp only [if_neg hc]
      rw [h4, b64Go_i_shift rest (i + 1) _]

/-- The accumulator of `b64Go` is only appended to. -/
theorem b64Go_acc : ∀ (l : List Nat) (i u : Nat) (acc : List Char),
    b64Go l i u acc = ((b64Go l i u []).fst, acc ++ (b64Go l i u []).snd)
  | [], _, _, _ => by simp [b64Go]
  | b :: rest, i, u, acc => by
    simp only [b64Go]
    by_cases hc : ((i % 3 == 2) = true)
    · simp only [if_pos hc]
      rw [b64Go_acc rest (i + 1) 0 (acc ++ _), b64Go_acc rest (i + 1) 0 ([] ++ _)]
      simp
    · simp only [if_neg hc]
      rw [b64Go_acc rest (i + 1) _ acc, b64Go_acc rest (i + 1) _ ([] : List Char)]

/-- Processing one full 3-byte group at a loop counter divisible by 3 emits
exactly the corresponding RFC 4648 character quadruple. -/
theorem b64Go_chunk (a b c : Nat) (ha : a < 256) (hb : b < 256) (hc : c < 256)
    (rest : List Nat) (i : Nat) (hi : i % 3 = 0) (acc : List Char) :
    b64Go (a :: b :: c :: rest) i 0 acc
      = b64Go rest (i + 3) 0 (acc ++
          [b64char (a / 4), b64char (a % 4 * 16 + b / 16),
           b64char (b % 16 * 4 + c / 64), b64char (c % 64)]) := by
  have e1 : ((0 <<< 8) ||| a) % 4294967296 = a := by
    rw [lor_shift 0 a 8 (by omega)]; omega
  have e2 : ((a <<< 8) ||| b) % 4294967296 = a * 256 + b := by
    rw [lor_shift a b 8 (by omega)]
    have : a * 2 ^ 8 + b < 4294967296 := by omega
    omega
  have e3 : (((a * 256 + b) <<< 8) ||| c) % 4294967296 = a * 65536 + b * 256 + c := by
    rw [lor_shift (a * 256 + b) c 8 (by omega)]
    have : (a * 256 + b) * 2 ^ 8 + c < 4294967296 := by omega
    omega
  have h0 : ((i % 3 == 2) = true) = False := by simp [hi]
  have h1 : (((i + 1) % 3 == 2) = true) = False := by
    have : (i + 1) % 3 = 1 := by omega
    simp [this]
  have h2 : (((i + 2) % 3 == 2) = true) = True := by
    have : (i + 2) % 3 = 2 := by omega
    simp [this]
  have c1 : ((a * 65536 + b * 256 + c) >>> 18) &&& 63 = a / 4 := by
    rw [Nat.shiftRight_eq_div_pow, and63]; omega
  have c2 : ((a * 65536 + b * 256 + c) >>> 12) &&& 63 = a % 4 * 16 + b / 16 := by
    rw [Nat.shiftRight_eq_div_pow, and63]; omega
  have c3 : ((a * 65536 + b * 256 + c) >>> 6) &&& 63 = b % 16 * 4 + c / 64 := by
    rw [Nat.shiftRight_eq_div_pow, and63]; omega
  have c4 : (a * 65536 + b * 256 + c) &&& 63 = c % 64 := by
    rw [and63]; omega
  have hii : i + 1 + 1 + 1 = i + 3 := by omega
  simp only [b64Go, e1, e2, e3, h0, h1, h2, if_true, if_false, c1, c2, c3, c4, hii]

/-- Alphabet indexing is injectively inverted by `b64index` on the 64 valid
indices. -/
theorem b64index_b64char : ∀ n, n < 64 → b64index (b64char n) = n := by decide

/-- No alphabet character is the padding character. -/
theorem b64char_ne_pad (n : Nat) : b64char n ≠ '=' := by
  have hlen : b64chars.length = 64 := by decide
  rcases lt_or_ge n 64 with h | h
  · revert h
    revert n
    decide
  · unfold b64char
    rw [List.getD_eq_default]
    · decide
    · omega

/-- The source encoder agrees with the RFC 4648 standard encoding on every
byte buffer. -/
theorem uint8ArrayToBase64_eq_rfc : ∀ (buf : List Nat), (∀ x ∈ buf, x < 256) →
    uint8ArrayToBase64 buf = String.mk (rfc4648Encode buf)
  | [], _ => rfl
  | [a], h => by
    have ha : a < 256 := h a (by simp)
    have hm : a % 4294967296 = a := Nat.mod_eq_of_lt (by omega)
    have e2 : (a <<< 16) % 4294967296 = a * 65536 := by
      rw [Nat.shiftLeft_eq]
      have : a * 2 ^ 16 < 4294967296 := by omega
      omega
    have c1 : ((a * 65536) >>> 18) &&& 63 = a / 4 := by
      rw [Nat.shiftRight_eq_div_pow, and63]; omega
    have c2 : ((a * 65536) >>> 12) &&& 63 = a % 4 * 16 := by
      rw [Nat.shiftRight_eq_div_pow, and63]; omega
    simp [uint8ArrayToBase64, b64Go, hm, e2, c1, c2, rfc4648Encode]
  | [a, b], h => by
    have ha : a < 256 := h a (by simp)
    have hb : b < 256 := h b (by simp)
    have hm : a % 4294967296 = a := Nat.mod_eq_of_lt (by omega)
    have e2 : ((a <<< 8) ||| b) % 4294967296 = a * 256 + b := by
      rw [lor_shift a b 8 (by omega)]
      have : a * 2 ^ 8 + b < 4294967296 := by omega
      omega
    have e3 : ((a * 256 + b) <<< 8) % 4294967296 = (a * 256 + b) * 256 := by
      rw [Nat.shiftLeft_eq]
      have : (a * 256 + b) * 2 ^ 8 < 4294967296 := by omega
      omega
    have c1 : (((a * 256 + b) * 256) >>> 18) &&& 63 = a / 4 := by
      rw [Nat.shiftRight_eq_div_pow, and63]; omega
    have c2 : (((a * 256 + b) * 256) >>> 12) &&& 63 = a % 4 * 16 + b / 16 := by
      rw [Nat.shiftRight_eq_div_pow, and63]; omega
    have c3 : (((a * 256 + b) * 256) >>> 6) &&& 63 = b % 16 * 4 := by
      rw [Nat.shiftRight_eq_div_pow, and63]; omega
    simp [uint8ArrayToBase64, b64Go, hm, e2, e3, c1, c2, c3, rfc4648Encode]
  | a :: b :: c :: rest, h => by
    have ha : a < 256 := h a (by simp)
    have hb : b < 256 := h b (by simp)
    have hc : c < 256 := h c (by simp)
    have ih := uint8ArrayToBase64_eq_rfc rest (fun x hx => h x (by simp [hx]))
    simp only [uint8ArrayToBase64] at ih ⊢
    rw [b64Go_chunk a b c ha hb hc rest 0 rfl [], b64Go_i_shift rest 0 0,
      b64Go_acc rest 0 0]
    simp only [List.nil_append, List.length_cons]
    have hmod : (rest.length + 1 + 1 + 1) % 3 = rest.length % 3 := by omega
    rw [hmod]
    have ih' := List.asString_inj.mp ih
    refine List.asString_inj.mpr ?_
    dsimp only
    rw [List.append_assoc, ih']
    simp [rfc4648Encode]

/-- Standard decoding inverts the standard encoding on every byte buffer. -/
theorem rfc4648Decode_encode : ∀ (buf : List Nat), (∀ x ∈ buf, x < 256) →
    rfc4648Decode (rfc4648Encode buf) = buf
  | [], _ => rfl
  | [a], h => by
    have ha : a < 256 := h a (by simp)
    have i1 : b64index (b64char (a / 4)) = a / 4 := b64index_b64char _ (by omega)
    have i2 : b64index (b64char (a % 4 * 16)) = a % 4 * 16 := b64index_b64char _ (by omega)
    simp [rfc4648Encode, rfc4648Decode, i1, i2]
    omega
  | [a, b], h => by
    have ha : a < 256 := h a (by simp)
    have hb : b < 256 := h b (by simp)
    have i1 : b64index (b64char (a / 4)) = a / 4 := b64index_b64char _ (by omega)
    have i2 : b64index (b64char (a % 4 * 16 + b / 16)) = a % 4 * 16 + b / 16 :=
      b64index_b64char _ (by omega)
    have i3 : b64index (b64char (b % 16 * 4)) = b % 16 * 4 := b64index_b64char _ (by omega)
    simp [rfc4648Encode, rfc4648Decode, i1, i2, i3, b64char_ne_pad]
    omega
  | a :: b :: c :: rest, h => by
    have ha : a < 256 := h a (by simp)
    have hb : b < 256 := h b (by simp)
    have hc : c < 256 := h c (by simp)
    have ih := rfc4648Decode_encode rest (fun x hx => h x (by simp [hx]))
    have i1 : b64index (b64char (a / 4)) = a / 4 := b64index_b64char _ (by omega)
    have i2 : b64index (b64char (a % 4 * 16 + b / 16)) = a % 4 * 16 + b / 16 :=
      b64index_b64char _ (by omega)
    have i3 : b64index (b64char (b % 16 * 4 + c / 64)) = b % 16 * 4 + c / 64 :=
      b64index_b64char _ (by omega)
    have i4 : b64index (b64char (c % 64)) = c % 64 := b64index_b64char _ (by omega)
    simp [rfc4648Encode, rfc4648Decode, i1, i2, i3, i4, b64char_ne_pad, ih]
    refine ⟨by omega, by omega, by omega⟩

/-- C5: the hand-rolled `uint8ArrayToBase64` agrees byte-for-byte with
standard RFC 4648 base64 (standard alphabet, `=` padding, no wrapping) on
every byte buffer, and standard decoding recovers the original bytes from
its output. -/
theorem uint8ArrayToBase64_rfc4648 (buf : List Nat) (h : ∀ x ∈ buf, x < 256) :
    uint8ArrayToBase64 buf = String.mk (rfc4648Encode buf)
      ∧ rfc4648Decode (uint8ArrayToBase64 buf).toList = buf := by
  have he := uint8ArrayToBase64_eq_rfc buf h
  refine ⟨he, ?_⟩
  rw [he]
  show rfc4648Decode (rfc4648Encode buf) = buf
  exact rfc4648Decode_encode buf h

/-- Witness for C5 at the concrete buffer `[77, 97, 110]` (ASCII `Man`). -/
theorem uint8ArrayToBase64_rfc4648_witness :
    (∀ x ∈ [77, 97, 110], x < 256)
      ∧ (uint8ArrayToBase64 [77, 97, 110] = String.mk (rfc4648Encode [77, 97, 110])
          ∧ rfc4648Decode (uint8ArrayToBase64 [77, 97, 110]).toList = [77, 97, 110]) :=
  ⟨by decide, uint8ArrayToBase64_rfc4648 [77, 97, 110] (by decide)⟩

/-- C8 counterexample: with `""` configured as a content-type entry and a
present-but-empty `Content-Type` header, the claimed characterisation
(present header whose lowercased value contains a configured entry) says
capture, but the code treats the falsy empty string as absent and refuses. -/
theorem shouldCapture_claim_counterexample :
    ¬ (shouldCapture { CONFIG with capture_content_types := [""] }
          (Headers.mk [("Content-Type", "")]) = true
        ↔ ∃ v, (Headers.mk [("Content-Type", "")]).get "Content-Type" = some v
            ∧ ∃ t ∈ ({ CONFIG with capture_content_types := [""] } : Config).capture_content_types,
                strContains (jsToLower v) (jsToLower t) = true) := by
  intro hiff
  have hclaim : ∃ v, (Headers.mk [("Content-Type", "")]).get "Content-Type" = some v
      ∧ ∃ t ∈ ({ CONFIG with capture_content_types := [""] } : Config).capture_content_types,
          strContains (jsToLower v) (jsToLower t) = true :=
    ⟨"", by decide, "", by decide, by decide⟩
  exact absurd (hiff.mpr hclaim) (by decide)

/-- C8 (amended): `shouldCapture` returns true iff a `Content-Type` header
is present with a non-empty value (case-insensitive lookup; JS treats the
empty string as absent) whose lowercasing contains the lowercasing of some
configured content-type entry as a substring; with the default config
`application/grpc+proto` is captured and `text/plain` is not. -/
theorem shouldCapture_spec :
    (∀ (cfg : Config) (hs : Headers),
        shouldCapture cfg hs = true
          ↔ ∃ v, hs.get "Content-Type" = some v ∧ v ≠ ""
              ∧ ∃ t ∈ cfg.capture_content_types,
                  strContains (jsToLower v) (jsToLower t) = true)
      ∧ shouldCapture CONFIG (Headers.mk [("Content-Type", "application/grpc+proto")]) = true
      ∧ shouldCapture CONFIG (Headers.mk [("Content-Type", "text/plain")]) = false := by
  refine ⟨fun cfg hs => ?_, by decide, by decide⟩
  have hg : Headers.get hs "content-type" = Headers.get hs "Content-Type" := by
    unfold Headers.get
    rw [show jsToLower "content-type" = "content-type" from by decide,
      show jsToLower "Content-Type" = "content-type" from by decide]
  simp only [shouldCapture, hg]
  cases hget : Headers.get hs "Content-Type" with
  | none => simp
  | some v =>
    by_cases hv : v.length = 0
    · have hv' : v = "" := by
        cases v with
        | mk data =>
          cases data with
          | nil => rfl
          | cons c cs => simp [String.length] at hv
      subst hv'
      simp
    · have hv2 : v.length > 0 := by omega
      simp only [if_pos hv2, if_neg hv]
      rw [List.any_eq_true]
      constructor
      · rintro ⟨t, ht, hcon⟩
        refine ⟨v, rfl, ?_, t, ht, hcon⟩
        intro hempty
        subst hempty
        simp [String.length] at hv
      · rintro ⟨v', hv', hne, t, ht, hcon⟩
        cases hv'
        exact ⟨t, ht, hcon⟩

/-- JS regex `\s` character class (ECMAScript WhiteSpace plus
LineTerminator), decided on the code point. -/
def isJsSpace (c : Char) : Bool :=
  decide (c.toNat = 9 ∨ c.toNat = 10 ∨ c.toNat = 11 ∨ c.toNat = 12 ∨ c.toNat = 13 ∨
    c.toNat = 32 ∨ c.toNat = 160 ∨ c.toNat = 5760 ∨ (8192 ≤ c.toNat ∧ c.toNat ≤ 8202) ∨
    c.toNat = 8232 ∨ c.toNat = 8233 ∨ c.toNat = 8239 ∨ c.toNat = 8287 ∨ c.toNat = 12288 ∨
    c.toNat = 65279)

/-- JS regex `\d` character class: exactly the ASCII digits. -/
def isJsDigit (c : Char) : Bool := decide (48 ≤ c.toNat ∧ c.toNat ≤ 57)

/-- Modelled from the spec: the platform `TextDecoder` (best-effort WHATWG
UTF-8 decode, never failing: invalid sequences produce U+FFFD replacement
characters).  Fuel-based so that it reduces in the kernel; the fuel is the
byte count, and at least one byte is consumed per step. -/
def utf8DecodeGo : Nat → List Nat → List Char
  | 0, _ => []
  | _, [] => []
  | fuel + 1, b :: rest =>
    if b < 128 then
      Char.ofNat b :: utf8DecodeGo fuel rest
    else if 194 ≤ b ∧ b ≤ 223 then
      match rest with
      | [] => [Char.ofNat 65533]
      | b2 :: rest2 =>
        if 128 ≤ b2 ∧ b2 ≤ 191 then
          Char.ofNat ((b - 192) * 64 + (b2 - 128)) :: utf8DecodeGo fuel rest2
        else
          Char.ofNat 65533 :: utf8DecodeGo fuel rest
    else if 224 ≤ b ∧ b ≤ 239 then
      match rest with
      | [] => [Char.ofNat 65533]
      | b2 :: rest2 =>
        let lo2 := if b = 224 then 160 else 128
        let hi2 := if b = 237 then 159 else 191
        if lo2 ≤ b2 ∧ b2 ≤ hi2 then
          match rest2 with
          | [] => [Char.ofNat 65533]
          | b3 :: rest3 =>
            if 128 ≤ b3 ∧ b3 ≤ 191 then
              Char.ofNat ((b - 224) * 4096 + (b2 - 128) * 64 + (b3 - 128))
                :: utf8DecodeGo fuel rest3
            else
              Char.ofNat 65533 :: utf8DecodeGo fuel rest2
        else
          Char.ofNat 65533 :: utf8DecodeGo fuel rest
    else if 240 ≤ b ∧ b ≤ 244 then
      match rest with
      | [] => [Char.ofNat 65533]
      | b2 :: rest2 =>
        let lo2 := if b = 240 then 144 else 128
        let hi2 := if b = 244 then 143 else 191
        if lo2 ≤ b2 ∧ b2 ≤ hi2 then
          match rest2 with
          | [] => [Char.ofNat 65533]
          | b3 :: rest3 =>
            if 128 ≤ b3 ∧ b3 ≤ 191 then
              match rest3 with
              | [] => [Char.ofNat 65533]
              | b4 :: rest4 =>
                if 128 ≤ b4 ∧ b4 ≤ 191 then
                  Char.ofNat
                      ((b - 240) * 262144 + (b2 - 128) * 4096 + (b3 - 128) * 64 + (b4 - 128))
                    :: utf8DecodeGo fuel rest4
                else
                  Char.ofNat 65533 :: utf8DecodeGo fuel rest3
            else
              Char.ofNat 65533 :: utf8DecodeGo fuel rest2
        else
          Char.ofNat 65533 :: utf8DecodeGo fuel rest
    else
      Char.ofNat 65533 :: utf8DecodeGo fuel rest

/-- `new TextDecoder().decode(bytes)`: total best-effort UTF-8 decoding. -/
def utf8Decode (bytes : List Nat) : List Char := utf8DecodeGo bytes.length bytes

/-- One attempt of the regex `grpc-status\s*:\s*(\d+)` anchored at the head
of `l`; returns the captured digit run. -/
def grpcStatusMatchAt (l : List Char) : Option (List Char) :=
  if "grpc-status".toList.isPrefixOf l then
    match (l.drop 11).dropWhile isJsSpace with
    | ':' :: r2 =>
      let ds := (r2.dropWhile isJsSpace).takeWhile isJsDigit
      if ds.isEmpty then none else some ds
    | _ => none
  else none

/-- JS `String.prototype.match` with `grpc-status\s*:\s*(\d+)`: the capture
of the leftmost match. -/
def grpcStatusScan : List Char → Option String
  | [] => none
  | l@(_ :: rest) =>
    match grpcStatusMatchAt l with
    | some ds => some (String.mk ds)
    | none => grpcStatusScan rest

/-- `extractGrpcStatusCode(grpcBodyUint8)` from `traceable.js`: decode the
bytes best-effort, then return the first `grpc-status` digit run, `null`
when absent. -/
def extractGrpcStatusCode (grpcBodyUint8 : List Nat) : Option String :=
  grpcStatusScan (utf8Decode grpcBodyUint8)

/-- The spec-side reading of one anchored match of
`grpc-status\s*:\s*(\d+)`: the text splits into the literal, optional
whitespace, a colon, optional whitespace, a non-empty maximal digit run
(the capture), and arbitrary remaining text. -/
def GrpcStatusPatternAt (l ds : List Char) : Prop :=
  ∃ w1 w2 rest,
    l = "grpc-status".toList ++ (w1 ++ ':' :: (w2 ++ (ds ++ rest)))
      ∧ (∀ c ∈ w1, isJsSpace c = true)
      ∧ (∀ c ∈ w2, isJsSpace c = true)
      ∧ ds ≠ []
      ∧ (∀ c ∈ ds, isJsDigit c = true)
      ∧ (∀ c ∈ rest.head?, isJsDigit c = false)

/-- An ASCII digit is not a JS whitespace character. -/
theorem digit_not_space (c : Char) (h : isJsDigit c = true) : isJsSpace c = false := by
  simp only [isJsDigit, decide_eq_true_eq] at h
  simp only [isJsSpace, decide_eq_false_iff_not]
  omega

/-- The head surviving `dropWhile` fails the predicate. -/
theorem head_dropWhile_false {α : Type} (p : α → Bool) :
    ∀ (l : List α), ∀ c ∈ (l.dropWhile p).head?, p c = false
  | [] => by simp
  | x :: l => by
    by_cases h : p x
    · simpa [List.dropWhile_cons_of_pos h] using head_dropWhile_false p l
    · intro c hc
      rw [List.dropWhile_cons_of_neg h] at hc
      simp only [List.head?_cons, Option.mem_def, Option.some.injEq] at hc
      subst hc
      exact eq_false_of_ne_true h

/-- `dropWhile` discards a leading block of satisfying elements. -/
theorem dropWhile_append_all {α : Type} (p : α → Bool) :
    ∀ (l r : List α), (∀ c ∈ l, p c = true) → (l ++ r).dropWhile p = r.dropWhile p
  | [], _, _ => rfl
  | x :: l, r, h => by
    rw [List.cons_append, List.dropWhile_cons_of_pos (h x (by simp)),
      dropWhile_append_all p l r (fun c hc => h c (by simp [hc]))]

/-- `dropWhile` stops exactly after a satisfying block when the next
element fails the predicate. -/
theorem dropWhile_append_head {α : Type} (p : α → Bool) (l r : List α)
    (h : ∀ c ∈ l, p c = true) (hr : ∀ c ∈ r.head?, p c = false) :
    (l ++ r).dropWhile p = r := by
  rw [dropWhile_append_all p l r h]
  cases r with
  | nil => rfl
  | cons x rx =>
    have hx : p x = false := hr x (by simp)
    exact List.dropWhile_cons_of_neg (by simp [hx])

/-- `takeWhile` returns exactly a leading satisfying block when the next
element fails the predicate. -/
theorem takeWhile_append_head {α : Type} (p : α → Bool) :
    ∀ (l r : List α), (∀ c ∈ l, p c = true) → (∀ c ∈ r.head?, p c = false) →
      (l ++ r).takeWhile p = l
  | [], r, _, hr => by
    cases r with
    | nil => rfl
    | cons x rx =>
      have hx : p x = false := hr x (by simp)
      exact List.takeWhile_cons_of_neg (by simp [hx])
  | x :: l, r, h, hr => by
    rw [List.cons_append, List.takeWhile_cons_of_pos (h x (by simp)),
      takeWhile_append_head p l r (fun c hc => h c (by simp [hc])) hr]

/-- The anchored matcher succeeds with capture `ds` exactly when the
spec-side pattern decomposition holds. -/
theorem grpcStatusMatchAt_iff (l ds : List Char) :
    grpcStatusMatchAt l = some ds ↔ GrpcStatusPatternAt l ds := by
  constructor
  · intro h
    unfold grpcStatusMatchAt at h
    by_cases hp : ("grpc-status".toList.isPrefixOf l) = true
    case neg => rw [if_neg hp] at h; cases h
    rw [if_pos hp] at h
    obtain ⟨tail, htail⟩ := List.isPrefixOf_iff_prefix.mp hp
    have hdrop : l.drop 11 = tail := by
      rw [← htail, List.drop_left' (by decide)]
    rw [hdrop] at h
    split at h
    case _ =>
      rename_i r2 heq
      by_cases hemp : ((r2.dropWhile isJsSpace).takeWhile isJsDigit).isEmpty = true
      case pos => rw [if_pos hemp] at h; cases h
      rw [if_neg hemp] at h
      injection h with hds
      have h1 : tail = tail.takeWhile isJsSpace ++ (':' :: r2) := by
        conv_lhs => rw [← List.takeWhile_append_dropWhile (p := isJsSpace) (l := tail)]
        rw [heq]
      have h2 : r2 = r2.takeWhile isJsSpace ++ r2.dropWhile isJsSpace :=
        (List.takeWhile_append_dropWhile (p := isJsSpace) (l := r2)).symm
      have h3 : r2.dropWhile isJsSpace
          = ds ++ (r2.dropWhile isJsSpace).dropWhile isJsDigit := by
        conv_lhs =>
          rw [← List.takeWhile_append_dropWhile (p := isJsDigit) (l := r2.dropWhile isJsSpace)]
        rw [hds]
      refine ⟨tail.takeWhile isJsSpace, r2.takeWhile isJsSpace,
        (r2.dropWhile isJsSpace).dropWhile isJsDigit, ?_, ?_, ?_, ?_, ?_, ?_⟩
      · have hfinal : tail = tail.takeWhile isJsSpace
            ++ ':' :: (r2.takeWhile isJsSpace
              ++ (ds ++ (r2.dropWhile isJsSpace).dropWhile isJsDigit)) := by
          calc tail
              = tail.takeWhile isJsSpace ++ ':' :: r2 := h1
            _ = tail.takeWhile isJsSpace
                  ++ ':' :: (r2.takeWhile isJsSpace ++ r2.dropWhile isJsSpace) := by
                conv_lhs => rw [h2]
            _ = tail.takeWhile isJsSpace
                  ++ ':' :: (r2.takeWhile isJsSpace
                    ++ (ds ++ (r2.dropWhile isJsSpace).dropWhile isJsDigit)) := by
                conv_lhs => rw [h3]
        rw [← htail]
        exact congrArg (fun x => "grpc-status".toList ++ x) hfinal
      · intro c hc; exact List.mem_takeWhile_imp hc
      · intro c hc; exact List.mem_takeWhile_imp hc
      · rw [← hds]
        intro hnil
        rw [hnil] at hemp
        exact hemp rfl
      · intro c hc; rw [← hds] at hc; exact List.mem_takeWhile_imp hc
      · exact head_dropWhile_false isJsDigit _
    case _ => cases h
  · rintro ⟨w1, w2, rest, rfl, hw1, hw2, hds, hdig, hrest⟩
    unfold grpcStatusMatchAt
    have hp : ("grpc-status".toList.isPrefixOf
        ("grpc-status".toList ++ (w1 ++ ':' :: (w2 ++ (ds ++ rest))))) = true := by
      rw [List.isPrefixOf_iff_prefix]
      exact ⟨_, rfl⟩
    rw [if_pos hp, List.drop_left' (by decide)]
    have hdsh : ∀ c ∈ (ds ++ rest).head?, isJsSpace c = false := by
      intro c hc
      cases ds with
      | nil => exact absurd rfl hds
      | cons d dtl =>
        have hcd : d = c := by simpa using hc
        rw [← hcd]
        exact digit_not_space d (hdig d (by simp))
    rw [dropWhile_append_head isJsSpace w1 _ hw1 (by
      intro c hc
      have hcc : ':' = c := by simpa using hc
      rw [← hcc]
      decide)]
    simp only []
    rw [dropWhile_append_head isJsSpace w2 _ hw2 hdsh,
      takeWhile_append_head isJsDigit ds rest hdig hrest]
    have hne : ds.isEmpty = false := by
      cases ds with
      | nil => exact absurd rfl hds
      | cons d dtl => rfl
    rw [hne]
    simp

/-- The scanner returns the capture of the leftmost position where the
anchored matcher succeeds. -/
theorem grpcStatusScan_spec : ∀ (l : List Char) (s : String),
    grpcStatusScan l = some s
      ↔ ∃ i ds, grpcStatusMatchAt (l.drop i) = some ds ∧ s = String.mk ds
          ∧ ∀ j < i, grpcStatusMatchAt (l.drop j) = none
  | [], s => by
    constructor
    · intro h
      cases h
    · rintro ⟨i, ds, h1, _, _⟩
      rw [List.drop_nil] at h1
      cases h1
  | c :: rest, s => by
    unfold grpcStatusScan
    cases hm : grpcStatusMatchAt (c :: rest) with
    | some ds0 =>
      simp only []
      constructor
      · intro h
        injection h with hs
        exact ⟨0, ds0, by simpa using hm, hs.symm, fun j hj => absurd hj (by omega)⟩
      · rintro ⟨i, ds, h1, h2, h3⟩
        cases i with
        | zero =>
          rw [List.drop_zero, hm] at h1
          injection h1 with hds
          rw [h2, hds]
        | succ i' =>
          have h0 := h3 0 (by omega)
          rw [List.drop_zero, hm] at h0
          cases h0
    | none =>
      simp only []
      rw [grpcStatusScan_spec rest s]
      constructor
      · rintro ⟨i, ds, h1, h2, h3⟩
        refine ⟨i + 1, ds, by simpa using h1, h2, fun j hj => ?_⟩
        cases j with
        | zero => simpa using hm
        | succ j' => simpa using h3 j' (by omega)
      · rintro ⟨i, ds, h1, h2, h3⟩
        cases i with
        | zero =>
          rw [List.drop_zero, hm] at h1
          cases h1
        | succ i' =>
          exact ⟨i', ds, by simpa using h1, h2,
            fun j hj => by simpa using h3 (j + 1) (by omega)⟩

/-- C9: `extractGrpcStatusCode` decodes the bytes best-effort (it is a
total function) and returns, as a string, the digit run captured at the
first occurrence of the pattern `grpc-status`, optional whitespace, a
colon, optional whitespace, one or more digits; `none` when no position
matches.  The trailer `"grpc-status: 13\r\ngrpc-message: boom"` yields
`"13"` and bytes with no such field yield `none`. -/
theorem extractGrpcStatusCode_spec :
    (∀ (bytes : List Nat) (s : String),
        extractGrpcStatusCode bytes = some s
          ↔ ∃ i ds, GrpcStatusPatternAt ((utf8Decode bytes).drop i) ds
              ∧ s = String.mk ds
              ∧ ∀ j < i, ∀ ds', ¬ GrpcStatusPatternAt ((utf8Decode bytes).drop j) ds')
      ∧ extractGrpcStatusCode
          (String.toList "grpc-status: 13\r\ngrpc-message: boom" |>.map Char.toNat)
          = some "13"
      ∧ extractGrpcStatusCode (String.toList "grpc-message: boom" |>.map Char.toNat)
          = none := by
  refine ⟨fun bytes s => ?_, by decide, by decide⟩
  unfold extractGrpcStatusCode
  rw [grpcStatusScan_spec]
  constructor
  · rintro ⟨i, ds, h1, h2, h3⟩
    refine ⟨i, ds, (grpcStatusMatchAt_iff _ _).mp h1, h2, fun j hj ds' hP => ?_⟩
    have hsome := (grpcStatusMatchAt_iff _ _).mpr hP
    rw [h3 j hj] at hsome
    cases hsome
  · rintro ⟨i, ds, h1, h2, h3⟩
    refine ⟨i, ds, (grpcStatusMatchAt_iff _ _).mpr h1, h2, fun j hj => ?_⟩
    cases hm : grpcStatusMatchAt ((utf8Decode bytes).drop j) with
    | none => rfl
    | some ds' => exact absurd ((grpcStatusMatchAt_iff _ _).mp hm) (h3 j hj ds')

/-- JS `parseInt(v, 10)`: skip leading whitespace, optional sign, then a
maximal non-empty run of ASCII digits (trailing text ignored); `NaN`
(modelled as `none`) when no digit is found. -/
def parseIntJs (s : String) : Option Int :=
  let l := s.toList.dropWhile isJsSpace
  let signAndRest : Int × List Char :=
    match l with
    | '-' :: r => (-1, r)
    | '+' :: r => (1, r)
    | _ => (1, l)
  let ds := signAndRest.snd.takeWhile isJsDigit
  if ds.isEmpty then none
  else some (signAndRest.fst *
    (ds.foldl (fun acc c => acc * 10 + (c.toNat - 48)) 0 : Nat))

/-- The `override(key, envName, transform)` helper of `updateConfigFromEnv`:
assign `transform v` when the environment value is present and non-empty
(`v !== undefined && v !== null && String(v).length > 0`), else keep the
current value. -/
def overrideWith {α : Type} (env : String → Option String) (envName : String)
    (transform : String → α) (cur : α) : α :=
  match env envName with
  | some v => if v.length > 0 then transform v else cur
  | none => cur

/-- The `if (x) { const parsed = parseJson(x); if (parsed) CONFIG.k = parsed }`
pattern of `updateConfigFromEnv` for the four JSON-list keys.  `parse`
stands for the platform `JSON.parse` composed with the `Array.isArray`
check (`parseJson`); a parse failure keeps the current value. -/
def overrideJsonList (env : String → Option String)
    (parse : String → Option (List String)) (envName : String)
    (cur : List String) : List String :=
  match env envName with
  | some v =>
      if v.length > 0 then
        match parse v with
        | some l => l
        | none => cur
      else cur
  | none => cur

/-- `updateConfigFromEnv()` from `traceable.js`: overlay the current
environment onto the (mutable, process-wide) `CONFIG` object.  The previous
config value is the explicit `c`; the returned value is the new `CONFIG`. -/
def updateConfigFromEnv (env : String → Option String)
    (parse : String → Option (List String)) (c : Config) : Config :=
  { tpa_address := overrideWith env "TA_TPA_ADDRESS" (fun v => v) c.tpa_address
  , service_name := overrideWith env "TA_SERVICE_NAME" (fun v => v) c.service_name
  , environment_name :=
      overrideWith env "TA_ENVIRONMENT_NAME" (fun v => v) c.environment_name
  , traceable_guid := overrideWith env "TA_GUID" (fun v => v) c.traceable_guid
  , debug := overrideWith env "TA_DEBUG" (fun v => jsToLower v == "true") c.debug
  , max_size_bytes := overrideWith env "TA_MAX_SIZE_BYTES"
      (fun v => match parseIntJs v with
        | some n => n
        | none => c.max_size_bytes)
      c.max_size_bytes
  , capture_content_types :=
      overrideJsonList env parse "TA_CAPTURE_CONTENT_TYPES" c.capture_content_types
  , capture_hosts := overrideJsonList env parse "TA_CAPTURE_HOSTS" c.capture_hosts
  , ignore_hosts := overrideJsonList env parse "TA_IGNORE_HOSTS" c.ignore_hosts
  , skip_routes := overrideJsonList env parse "TA_SKIP_ROUTES" c.skip_routes }

/-- A present, non-empty environment value. -/
def presentNonEmpty (o : Option String) : Bool :=
  match o with
  | some v => decide (v.length > 0)
  | none => false

/-- A present, non-empty environment value that `parseInt` accepts. -/
def parsesInt (o : Option String) : Bool :=
  match o with
  | some v => decide (v.length > 0) && (parseIntJs v).isSome
  | none => false

/-- A present, non-empty environment value that the JSON-list parse
accepts. -/
def parsesList (parse : String → Option (List String)) (o : Option String) : Bool :=
  match o with
  | some v => decide (v.length > 0) && (parse v).isSome
  | none => false

/-- An `overrideWith` whose key is present and non-empty ignores the
current value (and any agreeing transform variant). -/
theorem overrideWith_irrel {α : Type} (env : String → Option String) (envName : String)
    (t t' : String → α) (cur cur' : α)
    (h : ∀ v, env envName = some v → v.length > 0 → t v = t' v)
    (hpres : presentNonEmpty (env envName) = true) :
    overrideWith env envName t cur = overrideWith env envName t' cur' := by
  unfold overrideWith
  unfold presentNonEmpty at hpres
  cases henv : env envName with
  | none => rw [henv] at hpres; cases hpres
  | some v =>
    rw [henv] at hpres
    have hv : v.length > 0 := by simpa using hpres
    dsimp only
    rw [if_pos hv, if_pos hv]
    exact h v henv hv

/-- An `overrideJsonList` whose key is present, non-empty and parseable
ignores the current value. -/
theorem overrideJsonList_irrel (env : String → Option String)
    (parse : String → Option (List String)) (envName : String)
    (cur cur' : List String)
    (hp : parsesList parse (env envName) = true) :
    overrideJsonList env parse envName cur = overrideJsonList env parse envName cur' := by
  unfold overrideJsonList
  unfold parsesList at hp
  cases henv : env envName with
  | none => rw [henv] at hp; cases hp
  | some v =>
    rw [henv] at hp
    simp only [Bool.and_eq_true, decide_eq_true_eq, Option.isSome_iff_exists] at hp
    obtain ⟨hv, l, hl⟩ := hp
    dsimp only
    rw [if_pos hv, if_pos hv, hl]

/-- C4 counterexample: two invocations observing the same (empty)
environment resolve different configurations when the process-wide config
carries different residue from earlier invocations, refuting resolution
from defaults plus the current environment alone. -/
theorem updateConfigFromEnv_claim_counterexample :
    ¬ (updateConfigFromEnv (fun _ => none) (fun _ => none) CONFIG
        = updateConfigFromEnv (fun _ => none) (fun _ => none)
            { CONFIG with service_name := "other" }) := by decide

/-- C4 (amended): a key whose environment value is present, non-empty, and
(for the integer- and list-valued keys) parseable is resolved fresh from
the environment alone; when the environment supplies every key in this
sense, two invocations observing the same environment resolve identical
configurations regardless of the earlier process-wide config state. -/
theorem updateConfigFromEnv_fresh (env : String → Option String)
    (parse : String → Option (List String)) (c c' : Config)
    (h1 : presentNonEmpty (env "TA_TPA_ADDRESS") = true)
    (h2 : presentNonEmpty (env "TA_SERVICE_NAME") = true)
    (h3 : presentNonEmpty (env "TA_ENVIRONMENT_NAME") = true)
    (h4 : presentNonEmpty (env "TA_GUID") = true)
    (h5 : presentNonEmpty (env "TA_DEBUG") = true)
    (h6 : parsesInt (env "TA_MAX_SIZE_BYTES") = true)
    (h7 : parsesList parse (env "TA_CAPTURE_CONTENT_TYPES") = true)
    (h8 : parsesList parse (env "TA_CAPTURE_HOSTS") = true)
    (h9 : parsesList parse (env "TA_IGNORE_HOSTS") = true)
    (h10 : parsesList parse (env "TA_SKIP_ROUTES") = true) :
    updateConfigFromEnv env parse c = updateConfigFromEnv env parse c' := by
  unfold updateConfigFromEnv
  have hmax : ∀ (cur cur' : Int),
      overrideWith env "TA_MAX_SIZE_BYTES"
          (fun v => match parseIntJs v with | some n => n | none => cur) cur
        = overrideWith env "TA_MAX_SIZE_BYTES"
            (fun v => match parseIntJs v with | some n => n | none => cur') cur' := by
    intro cur cur'
    refine overrideWith_irrel env _ _ _ cur cur' ?_ ?_
    · intro v henv hv
      unfold parsesInt at h6
      rw [henv] at h6
      simp only [Bool.and_eq_true, decide_eq_true_eq, Option.isSome_iff_exists] at h6
      obtain ⟨_, n, hn⟩ := h6
      rw [hn]
    · unfold parsesInt presentNonEmpty at *
      cases henv : env "TA_MAX_SIZE_BYTES" with
      | none => rw [henv] at h6; cases h6
      | some v =>
        rw [henv] at h6
        simp only [Bool.and_eq_true] at h6
        exact h6.1
  congr 1
  · exact overrideWith_irrel env _ _ _ _ _ (fun v _ _ => rfl) h1
  · exact overrideWith_irrel env _ _ _ _ _ (fun v _ _ => rfl) h2
  · exact overrideWith_irrel env _ _ _ _ _ (fun v _ _ => rfl) h4
  · exact overrideWith_irrel env _ _ _ _ _ (fun v _ _ => rfl) h3
  · exact overrideJsonList_irrel env parse _ _ _ h7
  · exact hmax c.max_size_bytes c'.max_size_bytes
  · exact overrideJsonList_irrel env parse _ _ _ h8
  · exact overrideJsonList_irrel env parse _ _ _ h9
  · exact overrideJsonList_irrel env parse _ _ _ h10
  · exact overrideWith_irrel env _ _ _ _ _ (fun v _ _ => rfl) h5

/-- Witness for C4 (amended) at a concrete total environment. -/
theorem updateConfigFromEnv_fresh_witness :
    (presentNonEmpty ((fun k => if k == "TA_MAX_SIZE_BYTES" then some "42" else some "x")
        "TA_TPA_ADDRESS") = true)
      ∧ updateConfigFromEnv
            (fun k => if k == "TA_MAX_SIZE_BYTES" then some "42" else some "x")
            (fun v => some [v]) CONFIG
          = updateConfigFromEnv
              (fun k => if k == "TA_MAX_SIZE_BYTES" then some "42" else some "x")
              (fun v => some [v])
              { CONFIG with
                  service_name := "other"
                  max_size_bytes := (-7 : Int)
                  debug := true
                  skip_routes := ["/x"] } :=
  ⟨by decide,
    updateConfigFromEnv_fresh _ _ _ _ (by decide) (by decide) (by decide) (by decide)
      (by decide) (by decide) (by decide) (by decide) (by decide) (by decide)⟩

/-- The module version constant of `traceable.js`. -/
def VERSION : String := "2.4.1-dev"

/-- The `request` part of the export record built by
`createExtCapReqResCapBody`. -/
structure ExtCapRequest where
  method : String
  headers : List (String × String)
  body : Option String
  scheme : String
  path : String
  host : String
  truncated : Bool
deriving DecidableEq

/-- The `response` part of the export record. -/
structure ExtCapResponse where
  headers : List (String × String)
  requestUrl : String
  statusCode : Nat
  body : Option String
  truncated : Bool
deriving DecidableEq

/-- The export record (`extCapData`) shipped to the collector. -/
structure ExtCap where
  request : ExtCapRequest
  response : ExtCapResponse
  requestTimestampInMs : Int
deriving DecidableEq

/-- `createExtCapHeaders(start, end)` from `traceable.js`.  The agent token
is read from the environment (`getEnvVar('TRACEABLE_AGENT_TOKEN')`). -/
def createExtCapHeaders (cfg : Config) (env : String → Option String)
    (start endT : Int) : List (String × String) :=
  let timeNanos : Int := (endT - start) * 1000000
  let headers : List (String × String) :=
    [("Content-Type", "application/json"),
     ("traceableai-service-name", cfg.service_name),
     ("traceableai-module-version", VERSION),
     ("traceableai-environment-name", cfg.environment_name),
     ("traceableai-module-name", "netlify-edge"),
     ("traceableai-total-duration-nanos", toString timeNanos)]
  let headers :=
    if cfg.traceable_guid.length > 0 then
      headers ++ [("x-traceable-guid", cfg.traceable_guid)]
    else headers
  match env "TRACEABLE_AGENT_TOKEN" with
  | some token =>
      if token.length > 0 then headers ++ [("traceableai-agent-token", token)]
      else headers
  | none => headers

/-- The `fetch` RequestInit options object built by `exportData`, together
with the optional cancellation signal of the platform `fetch` API.  The
source constructs `{ method, headers, body }` and attaches no
`AbortSignal`, so `signal` is always `none`; `payload` stands for
`JSON.stringify(extCapData)` (serialization is the platform's). -/
structure FetchOptions where
  method : String
  headers : List (String × String)
  payload : ExtCap
  signal : Option Nat
deriving DecidableEq

/-- One outgoing HTTP call: target URL plus options. -/
structure FetchCall where
  url : String
  options : FetchOptions
deriving DecidableEq

/-- The parts of a platform fetch `Response` that `exportData` reads. -/
structure FetchResponse where
  status : Nat
  ok : Bool
  statusText : String
  bodyText : Except String String
deriving DecidableEq

/-- `exportData(extCapData, start, end)` from `traceable.js`.  The platform
`fetch` is the explicit `fetchFn`; the result is the list of HTTP calls
issued plus the console/debug log lines, and the function returns normally
on every fetch outcome (all errors are caught). -/
def exportData (cfg : Config) (env : String → Option String) (extCapData : ExtCap)
    (start endT : Int) (fetchFn : FetchCall → Except String FetchResponse) :
    List FetchCall × List String :=
  let headers := createExtCapHeaders cfg env start endT
  let options : FetchOptions :=
    { method := "POST", headers := headers, payload := extCapData, signal := none }
  let url := cfg.tpa_address ++ "/ext_cap/v1/req_res_cap"
  let call : FetchCall := { url := url, options := options }
  match fetchFn call with
  | .ok response =>
    let logs1 :=
      if cfg.debug then
        ["Request to " ++ url ++ " completed with status: " ++ toString response.status]
      else []
    let logs2 :=
      if !response.ok then
        let l1 :=
          if cfg.debug then
            ["Error in exportData: HTTP " ++ toString response.status ++ " - "
              ++ response.statusText]
          else []
        if response.status == 530 then
          match response.bodyText with
          | .ok bodyText =>
              l1 ++ (if cfg.debug then ["Error response body: " ++ bodyText] else [])
          | .error e => l1 ++ ["Attempt to read error response body failed: " ++ e]
        else l1
      else []
    ([call], logs1 ++ logs2)
  | .error e => ([call], ["Error in exportData: " ++ e])

/-- C3 counterexample: at a concrete record and a failing transport, the
single POST issued by `exportData` carries no timeout or abort signal at
all, refuting "bounded by a configurable timeout". -/
theorem exportData_claim_counterexample :
    ¬ (∀ call ∈ (exportData CONFIG (fun _ => none)
          ⟨⟨"GET", [], none, "https:", "/", "h", false⟩, ⟨[], "u", 200, none, false⟩, 0⟩
          0 1 (fun _ => Except.error "network")).fst,
        call.options.signal.isSome = true) := by decide

/-- C3 (amended): every export issues exactly one POST to
`{collector_address}/ext_cap/v1/req_res_cap`, carrying no timeout or abort
signal, whatever the transport outcome — so the call is never cancelled,
never retried, and every failure is swallowed into log output. -/
theorem exportData_spec (cfg : Config) (env : String → Option String)
    (extCapData : ExtCap) (start endT : Int)
    (fetchFn : FetchCall → Except String FetchResponse) :
    (exportData cfg env extCapData start endT fetchFn).fst
      = [{ url := cfg.tpa_address ++ "/ext_cap/v1/req_res_cap"
         , options := { method := "POST"
                      , headers := createExtCapHeaders cfg env start endT
                      , payload := extCapData
                      , signal := none } }] := by
  simp only [exportData]
  split <;> rfl

/-- The parts of the incoming platform `Request` the middleware reads.
`body` is the outcome of `request.clone().arrayBuffer()`: the bytes, or a
read failure. -/
structure Request where
  url : String
  method : String
  headers : Headers
  body : Except String (List Nat)
deriving DecidableEq

/-- The parts of the origin `Response` the middleware reads.  `body` is the
outcome of `response.clone().arrayBuffer()`. -/
structure Response where
  status : Nat
  headers : Headers
  body : Except String (List Nat)
deriving DecidableEq

/-- `createExtCapReqResCapBody(...)` from `traceable.js`. -/
def createExtCapReqResCapBody (url : URL) (req : Request) (res : Response)
    (reqBody resBody : Option String) (startMs : Int) (grpc : Bool)
    (overrideStatus : Option String) (reqTruncated resTruncated : Bool) : ExtCap :=
  let reqHeaders := formatHeaders req.headers
  let resHeaders0 := formatHeaders res.headers
  let resHeaders :=
    match overrideStatus with
    | some s =>
        if grpc && s.length > 0 then jsObjectSet resHeaders0 "grpc-status" s
        else resHeaders0
    | none => resHeaders0
  { request :=
      { method := req.method
      , headers := reqHeaders
      , body := reqBody
      , scheme := url.protocol
      , path := url.pathname
      , host := url.host
      , truncated := reqTruncated }
  , response :=
      { headers := resHeaders
      , requestUrl := req.url
      , statusCode := res.status
      , body := resBody
      , truncated := resTruncated }
  , requestTimestampInMs := startMs }

/-- The externally visible outcome of one handler invocation: the response
returned to the client, the records handed to the exporter, the HTTP calls
the exporter issued, and the log lines. -/
structure HandlerResult where
  response : Response
  exported : List ExtCap
  fetchCalls : List FetchCall
  logs : List String
deriving DecidableEq

/-- The default edge handler of `traceable.js`.  Platform collaborators are
explicit: `env` (environment lookup), `parse` (`JSON.parse` for list
overrides), `url` (`new URL(request.url)`), `nextResponse`
(`context.next()`), `startMs`/`afterMs` (`new Date()` at the two capture
points) and `fetchFn` (`fetch`).  `prior` is the process-wide `CONFIG`
value left by earlier invocations; the returned `Config` is the new one. -/
def edgeHandler (env : String → Option String)
    (parse : String → Option (List String)) (prior : Config)
    (request : Request) (url : URL) (nextResponse : Response)
    (startMs afterMs : Int)
    (fetchFn : FetchCall → Except String FetchResponse) : Config × HandlerResult :=
  let cfg := updateConfigFromEnv env parse prior
  if isStatic url then
    (cfg, { response := nextResponse, exported := [], fetchCalls := [], logs := [] })
  else if !(shouldCaptureHost url cfg) || shouldSkipRoute url cfg then
    (cfg, { response := nextResponse, exported := [], fetchCalls := [], logs := [] })
  else
    let reqCapture : Option String × Bool × List String :=
      if shouldCapture cfg request.headers then
        match request.body with
        | .ok bytes =>
          let cb := readClonedBody cfg bytes
          (some (uint8ArrayToBase64 cb.body), cb.truncated, [])
        | .error e => (none, false, ["Error capturing request body: " ++ e])
      else (none, false, [])
    let requestBody := reqCapture.fst
    let requestTruncated := reqCapture.snd.fst
    let logsReq := reqCapture.snd.snd
    let response := nextResponse
    if shouldCapture cfg response.headers then
      match response.body with
      | .ok bytes =>
        let cb := readClonedBody cfg bytes
        let grpc := isGrpc response.headers
        let overrideStatus := if grpc then extractGrpcStatusCode cb.body else none
        let responseBody := some (uint8ArrayToBase64 cb.body)
        let extCap := createExtCapReqResCapBody url request response requestBody
          responseBody startMs grpc overrideStatus requestTruncated cb.truncated
        let ex := exportData cfg env extCap startMs afterMs fetchFn
        (cfg, { response := response, exported := [extCap], fetchCalls := ex.fst,
                logs := logsReq ++ ex.snd })
      | .error e =>
        (cfg, { response := response, exported := [], fetchCalls := [],
                logs := logsReq ++ ["Error during response capture phase: " ++ e] })
    else
      let extCap := createExtCapReqResCapBody url request response requestBody
        none startMs false none requestTruncated false
      let ex := exportData cfg env extCap startMs afterMs fetchFn
      (cfg, { response := response, exported := [extCap], fetchCalls := ex.fst,
              logs := logsReq ++ ex.snd })

/-- C2: the response returned to the client is exactly the origin handler's
response, for every environment, configuration residue, request body
outcome, response body outcome and transport outcome (in particular when
request capture, response capture or export fails); and at most one record
is exported per exchange, so the only externally observable effect of a
failure is the absence of that record. -/
theorem edgeHandler_response_preserved (env : String → Option String)
    (parse : String → Option (List String)) (prior : Config)
    (request : Request) (url : URL) (nextResponse : Response)
    (startMs afterMs : Int)
    (fetchFn : FetchCall → Except String FetchResponse) :
    (edgeHandler env parse prior request url nextResponse startMs afterMs fetchFn).snd.response
        = nextResponse
      ∧ (edgeHandler env parse prior request url nextResponse startMs
          afterMs fetchFn).snd.exported.length ≤ 1 := by
  simp only [edgeHandler]
  split
  · exact ⟨rfl, by simp⟩
  split
  · exact ⟨rfl, by simp⟩
  split
  · split
    · exact ⟨rfl, by simp⟩
    · exact ⟨rfl, by simp⟩
  · exact ⟨rfl, by simp⟩

/-- C10: the two capture sides fail asymmetrically.  With the filters
passing and the request body unreadable, an exchange whose response capture
succeeds still exports one record whose request body is `null` and request
truncated flag is `false`; an exchange whose response capture fails exports
nothing at all. -/
theorem edgeHandler_capture_asymmetry (env : String → Option String)
    (parse : String → Option (List String)) (prior : Config)
    (request : Request) (url : URL) (respOk respErr : Response)
    (startMs afterMs : Int) (fetchFn : FetchCall → Except String FetchResponse)
    (e1 e2 : String) (bytesOk : List Nat)
    (hstatic : isStatic url = false)
    (hhost : shouldCaptureHost url (updateConfigFromEnv env parse prior) = true)
    (hroute : shouldSkipRoute url (updateConfigFromEnv env parse prior) = false)
    (hreqcap : shouldCapture (updateConfigFromEnv env parse prior) request.headers = true)
    (hreqerr : request.body = Except.error e1)
    (hrespcap : shouldCapture (updateConfigFromEnv env parse prior) respOk.headers = true)
    (hok : respOk.body = Except.ok bytesOk)
    (hrespcap2 : shouldCapture (updateConfigFromEnv env parse prior) respErr.headers = true)
    (herr2 : respErr.body = Except.error e2) :
    (∃ rec, (edgeHandler env parse prior request url respOk startMs
          afterMs fetchFn).snd.exported = [rec]
        ∧ rec.request.body = none ∧ rec.request.truncated = false)
      ∧ (edgeHandler env parse prior request url respErr startMs
          afterMs fetchFn).snd.exported = [] := by
  constructor
  · simp only [edgeHandler, hstatic, hhost, hroute, hreqcap, hreqerr, hrespcap, hok]
    simp [createExtCapReqResCapBody]
  · simp only [edgeHandler, hstatic, hhost, hroute, hreqcap, hreqerr, hrespcap2, herr2]
    simp

/-- Witness for C10 at a concrete JSON exchange whose request body read
fails. -/
theorem edgeHandler_capture_asymmetry_witness :
    (isStatic { protocol := "https:", host := "h", hostname := "h", pathname := "/a" } = false)
      ∧ ((∃ rec, (edgeHandler (fun _ => none) (fun _ => none) CONFIG
              { url := "https://h/a", method := "GET",
                headers := Headers.mk [("Content-Type", "application/json")],
                body := Except.error "boom" }
              { protocol := "https:", host := "h", hostname := "h", pathname := "/a" }
              { status := 200, headers := Headers.mk [("Content-Type", "application/json")],
                body := Except.ok [1, 2, 3] }
              0 5 (fun _ => Except.error "down")).snd.exported = [rec]
            ∧ rec.request.body = none ∧ rec.request.truncated = false)
          ∧ (edgeHandler (fun _ => none) (fun _ => none) CONFIG
              { url := "https://h/a", method := "GET",
                headers := Headers.mk [("Content-Type", "application/json")],
                body := Except.error "boom" }
              { protocol := "https:", host := "h", hostname := "h", pathname := "/a" }
              { status := 200, headers := Headers.mk [("Content-Type", "application/json")],
                body := Except.error "bad" }
              0 5 (fun _ => Except.error "down")).snd.exported = []) :=
  ⟨by decide,
    edgeHandler_capture_asymmetry (fun _ => none) (fun _ => none) CONFIG
      { url := "https://h/a", method := "GET",
        headers := Headers.mk [("Content-Type", "application/json")],
        body := Except.error "boom" }
      { protocol := "https:", host := "h", hostname := "h", pathname := "/a" }
      { status := 200, headers := Headers.mk [("Content-Type", "application/json")],
        body := Except.ok [1, 2, 3] }
      { status := 200, headers := Headers.mk [("Content-Type", "application/json")],
        body := Except.error "bad" }
      0 5 (fun _ => Except.error "down") "boom" "bad" [1, 2, 3]
      (by decide) (by decide) (by decide) (by decide) (by decide) (by decide)
      (by decide) (by decide) (by decide)⟩
